import Mathlib

/-!
# Verification of the hookshot webhook receiver

Shallow embedding, in Lean 4, of the parts of the hookshot source
(`src/cli.rs`, `src/task_manager.rs`, `src/repo_config.rs`, `src/signature.rs`,
`src/notifier.rs`, `src/deploy_task.rs`, `src/message.rs`, `src/git.rs`)
that the specified properties talk about, followed by theorems settling each
property.  Rust `String`s are embedded as Lean `String`s, machine integers as
`Nat`/`Int`, bytes as `Fin 256`, fallible operations as `Option`/`Except`, and
effectful operations (processes, the filesystem) as explicit parameters
describing the outcome of each external call.
-/

namespace Hookshot

/-! ## cli.rs: insecure-mode switch

`src/cli.rs` lines 21-22 and 36-41:

```rust
const ENV_INSECURE_KEY: &'static str = "HOOKSHOT_INSECURE";

fn skip_signature_check() -> bool{
    match ENV_INSECURE_KEY {
        "true" | "t" | "1" => true,
        _ => false,
    }
}
```

Note that the `match` scrutinee is the constant `ENV_INSECURE_KEY` itself (the
environment-variable *name*); the function never reads the environment.  To
make that visible we embed the match arm as `insecure_value_match` and apply it
to the scrutinee that the source applies it to. -/

def ENV_INSECURE_KEY : String := "HOOKSHOT_INSECURE"

/-- The match arms of `skip_signature_check`: is the scrutinee one of
`"true"`, `"t"`, `"1"`? -/
def insecure_value_match (s : String) : Bool :=
  match s with
  | "true" | "t" | "1" => true
  | _ => false

/-- `skip_signature_check` from `src/cli.rs:36-41`: the scrutinee of the match
is the constant `ENV_INSECURE_KEY`, not the value of the environment
variable. -/
def skip_signature_check : Bool :=
  insecure_value_match ENV_INSECURE_KEY

/-! ## task_manager.rs: bounded queue

`src/task_manager.rs` lines 141-168.  A `Queue<T>` holds a `VecDeque` of
`(task, result-sender)` pairs and an optional limit.  We embed the deque as a
`List` (front at the head), and we return, next to the new queue contents, the
list of tasks whose `cancel()` hook was invoked, in invocation order.

```rust
fn push_task(&mut self, task: (T, Sender<T>)) {
    if let Some(limit) = self.limit {
        if limit < 1 {
            return;
        }
        if self.queue.len() + 1 > limit as usize {
            if let Some((cancelled_task, _)) = self.pop_task() {
                cancelled_task.cancel();
            }
            return self.push_task(task);
        }
    }
    self.queue.push_back(task);
}
fn pop_task(&mut self) -> Option<(T, Sender<T>)> {
    self.queue.pop_front()
}
```

The recursive call re-enters `push_task` with the same `limit` after popping
the front element.  When `limit ≥ 1` the recursion always reaches a queue
shorter than `limit`, so the structural recursion below on the list is the
same function; the `[]` branch of `push_task_aux` is unreachable for
`limit ≥ 1` (the source would loop forever there, but it can only be reached
with `limit < 1`, which the guard above already returned on). -/

def push_task_aux {T : Type} (limit : Nat) : List T → T → List T × List T
  | [], task =>
    if 0 + 1 > limit then ([], []) else ([task], [])
  | front :: rest, task =>
    if (front :: rest).length + 1 > limit then
      let r := push_task_aux limit rest task
      (r.1, front :: r.2)
    else
      (front :: rest ++ [task], [])

/-- `Queue::push_task` from `src/task_manager.rs:151-164`.  Returns the queue
contents after the push together with the tasks that were cancelled (evicted),
oldest first. -/
def push_task {T : Type} (limit : Option Nat) (queue : List T) (task : T) :
    List T × List T :=
  match limit with
  | none => (queue ++ [task], [])
  | some l =>
    if l < 1 then (queue, [])
    else push_task_aux l queue task

/-! ## message.rs: payload dialects and GitRepo derivation

`src/message.rs` and `src/git.rs:13-50`.  `RefType` is the
lowercase-variant enum from `src/message.rs:8-11`.  Rust's
`str::replace(from, to)` with one-character `from` and `to` replaces every
occurrence, i.e. maps the replacement over the characters. -/

inductive RefType
  | tag
  | branch
  deriving Repr, DecidableEq

/-- Rust `s.replace(target, repl)` for one-character patterns. -/
def replaceChar (target repl : Char) (s : String) : String :=
  String.mk (s.data.map (fun c => if c = target then repl else c))

/-- `GitRepo` from `src/git.rs:13-37`. -/
structure GitRepo where
  owner : String
  name : String
  refstring : String
  reftype : RefType
  sha : String
  remote_path : String
  local_path : String
  deriving Repr, DecidableEq

/-- `GitRepo::fully_qualified_branch` from `src/git.rs:48-50`. -/
def GitRepo.fully_qualified_branch (r : GitRepo) : String :=
  r.owner ++ "." ++ r.name ++ "." ++ r.refstring

/-- The sanitisation applied to the local-path component in both
`to_git_repo` impls (`src/message.rs:32` and `src/message.rs:164`):
`path.replace("/", "!").replace("\\", "!")`. -/
def sanitizeSlashes (s : String) : String :=
  replaceChar '\\' '!' (replaceChar '/' '!' s)

/-- `GitHubMessage` from `src/message.rs:14-21`. -/
structure GitHubMessage where
  reftype : RefType
  refstring : String
  repo_name : String
  owner : String
  git_url : String
  sha : String
  deriving Repr, DecidableEq

/-- `impl ToGitRepo for GitHubMessage` from `src/message.rs:23-47`. -/
def GitHubMessage.to_git_repo (m : GitHubMessage) (root : String) : GitRepo :=
  let local_path_component :=
    sanitizeSlashes (m.owner ++ "." ++ m.repo_name ++ "." ++ m.refstring)
  { owner := m.owner
    name := m.repo_name
    refstring := m.refstring
    reftype := m.reftype
    sha := m.sha
    local_path := root ++ "/" ++ local_path_component
    remote_path := m.git_url }

/-- `SimpleMessage` from `src/message.rs:122-143`.  The source field `prefix`
is spelled `pfx` here because `prefix` is not usable as a Lean identifier in
this development. -/
structure SimpleMessage where
  pfx : Option String
  reftype : RefType
  refstring : String
  remote : String
  sha : String
  repo_name : String
  deriving Repr, DecidableEq

/-- `impl ToGitRepo for SimpleMessage` from `src/message.rs:153-177`:

```rust
let owner = self.prefix.unwrap_or("$".to_owned());
let local_path_component = {
    let prefix = owner.replace(".", "!");
    let path = format!("{}.{}.{}", prefix, self.repo_name, self.refstring);
    path.replace("/", "!").replace("\\", "!")
};
GitRepo { name: .., owner: owner, .. }
```

Note the `owner` stored in the `GitRepo` is the raw `prefix` (default `"$"`);
the `.` → `!` replacement is applied only to the copy used for the local
path. -/
def SimpleMessage.to_git_repo (m : SimpleMessage) (root : String) : GitRepo :=
  let owner := m.pfx.getD "$"
  let local_path_component :=
    sanitizeSlashes
      ((replaceChar '.' '!' owner) ++ "." ++ m.repo_name ++ "." ++ m.refstring)
  { owner := owner
    name := m.repo_name
    refstring := m.refstring
    reftype := m.reftype
    sha := m.sha
    local_path := root ++ "/" ++ local_path_component
    remote_path := m.remote }

/-! ## signature.rs: HMAC signatures

`src/signature.rs`.  The HMAC computation itself (`openssl::crypto::hmac`)
is an external primitive; we take it as an explicit parameter
`hmac : HashType → String → String → List (Fin 256)` (algorithm, key, data →
mac bytes), matching the call `hmac(alg.to_openssl(), key.as_bytes(),
data.as_bytes())` at `src/signature.rs:92`. -/

inductive HashType
  | MD5
  | SHA1
  | SHA224
  | SHA256
  | SHA384
  | SHA512
  | RIPEMD160
  deriving Repr, DecidableEq

/-- `HashType::from_str` from `src/signature.rs:18-29`. -/
def HashType.from_str (hasher : String) : Option HashType :=
  match hasher with
  | "md5" => some HashType.MD5
  | "sha1" => some HashType.SHA1
  | "sha224" => some HashType.SHA224
  | "sha256" => some HashType.SHA256
  | "sha384" => some HashType.SHA384
  | "sha512" => some HashType.SHA512
  | "ripemd160" => some HashType.RIPEMD160
  | _ => none

/-- `impl ToString for HashType` from `src/signature.rs:43-55`. -/
def HashType.to_string : HashType → String
  | HashType.MD5 => "md5"
  | HashType.SHA1 => "sha1"
  | HashType.SHA224 => "sha224"
  | HashType.SHA256 => "sha256"
  | HashType.SHA384 => "sha384"
  | HashType.SHA512 => "sha512"
  | HashType.RIPEMD160 => "ripemd160"

/-- Lowercase hex digit for a value below 16, as produced by Rust's
`format!("{:x}", _)`. -/
def hexChar (n : Nat) : Char :=
  if n < 10 then Char.ofNat (48 + n) else Char.ofNat (87 + n)

/-- One byte as two lowercase hex characters: `format!("{:0>2x}", b)` for a
`u8` value (`src/signature.rs:59`). -/
def byteToHex (b : Fin 256) : List Char :=
  [hexChar (b.val / 16), hexChar (b.val % 16)]

/-- `bytes_to_hex` from `src/signature.rs:56-62`. -/
def bytes_to_hex (bytes : List (Fin 256)) : String :=
  String.mk (bytes.map byteToHex).flatten

/-- `Signature` from `src/signature.rs:64-68`. -/
structure Signature where
  alg : HashType
  hex : String
  deriving Repr, DecidableEq

/-- The `[:word:]` ASCII class of the old Rust regex syntax used at
`src/signature.rs:71`: `[0-9A-Za-z_]`. -/
def isWordChar (c : Char) : Bool :=
  c.isAlphanum || c = '_'

/-- The `[:xdigit:]` ASCII class: `[0-9a-fA-F]`. -/
def isXdigitChar (c : Char) : Bool :=
  c.isDigit || ('a' ≤ c && c ≤ 'f') || ('A' ≤ c && c ≤ 'F')

/-- Split a character list at its first `'='`, returning the parts before and
after it. -/
def splitEq : List Char → Option (List Char × List Char)
  | [] => none
  | c :: rest =>
    if c = '=' then some ([], rest)
    else
      match splitEq rest with
      | none => none
      | some (a, b) => some (c :: a, b)

/-- `Signature::from` from `src/signature.rs:70-89` (spelled `fromStr` because
`from` is a Lean keyword).  The source matches the anchored regex
`^([:word:]+)=([:xdigit:]+)$` and maps the algorithm token through
`HashType::from_str`.  Because neither character class contains `'='`, the
regex matches exactly when the text splits at its first `'='` into a nonempty
all-word part and a nonempty all-xdigit part, which is what we compute. -/
def Signature.fromStr (sig : String) : Option Signature :=
  match splitEq sig.data with
  | none => none
  | some (hash, hex) =>
    if hash ≠ [] ∧ hash.all isWordChar ∧ hex ≠ [] ∧ hex.all isXdigitChar then
      match HashType.from_str (String.mk hash) with
      | some alg => some { alg := alg, hex := String.mk hex }
      | none => none
    else none

/-- `Signature::create` from `src/signature.rs:91-98`, with the openssl HMAC
passed in as `hmac`. -/
def Signature.create (hmac : HashType → String → String → List (Fin 256))
    (alg : HashType) (data key : String) : Signature :=
  { alg := alg, hex := bytes_to_hex (hmac alg key data) }

/-- `Signature::verify` from `src/signature.rs:100-102`:
`*self == Self::create(self.alg, data, key)`. -/
def Signature.verify (hmac : HashType → String → String → List (Fin 256))
    (s : Signature) (data key : String) : Bool :=
  s == Signature.create hmac s.alg data key

/-- `impl fmt::Display for Signature` from `src/signature.rs:104-108`:
`"{alg}={hex}"`. -/
def Signature.toString (s : Signature) : String :=
  s.alg.to_string ++ "=" ++ s.hex

/-! ## repo_config.rs: per-repo configuration and pattern lookup

`src/repo_config.rs`.  A `ConfigMap` is a `BTreeMap<String, Config>` keyed by
the entry's pattern; we embed it as a list of `Config`s in ascending key
order with distinct patterns (which is how the map iterates), and `get` as a
search by pattern. -/

/-- `DeployMethod` from `src/repo_config.rs:16-20`. -/
inductive DeployMethod
  | Ansible
  | Makefile
  deriving Repr, DecidableEq

/-- `Config` from `src/repo_config.rs:30-37`: one `[branch.<pattern>]` or
`[tag.<pattern>]` entry.  The `MakeTask` is embedded as its target name and
the `AnsibleTask` as its (playbook, inventory) pair; `lookup` never inspects
them. -/
structure Config where
  pattern : String
  method : DeployMethod
  notify_url : Option String
  make_task : Option String
  ansible_task : Option (String × String)
  deriving Repr, DecidableEq

/-- Three-way lexicographic comparison of character lists by code point.
Rust's `str` comparison is byte-wise over UTF-8, which coincides with
code-point order because UTF-8 is order-preserving. -/
def lexCmpChars : List Char → List Char → Ordering
  | [], [] => Ordering.eq
  | [], _ :: _ => Ordering.lt
  | _ :: _, [] => Ordering.gt
  | a :: as_, b :: bs =>
    if a.toNat < b.toNat then Ordering.lt
    else if b.toNat < a.toNat then Ordering.gt
    else lexCmpChars as_ bs

/-- `impl PartialOrd for Config` from `src/repo_config.rs:55-81`, flattened
from the Rust `match` into nested conditionals:

```rust
let self_wildcards = self.pattern.matches('*').count();  // count of '*'
if self.pattern == "*" { return Some(Ordering::Greater) }
if other.pattern == "*" { return Some(Ordering::Less) }
match self_wildcards.cmp(&other_wildcards) {
    Ordering::Less => Some(Ordering::Less),
    Ordering::Equal if self_wildcards == 0 => self.pattern.partial_cmp(&other.pattern),
    Ordering::Equal => match self_len.cmp(&other_len) {   // len = byte length
        Ordering::Less => Some(Ordering::Greater),
        Ordering::Equal => self.pattern.partial_cmp(&other.pattern),
        Ordering::Greater => Some(Ordering::Less),
    },
    Ordering::Greater => Some(Ordering::Greater),
}
```
-/
def config_cmp (p q : String) : Ordering :=
  let p_wildcards := p.data.count '*'
  let q_wildcards := q.data.count '*'
  if p = "*" then Ordering.gt
  else if q = "*" then Ordering.lt
  else if p_wildcards < q_wildcards then Ordering.lt
  else if q_wildcards < p_wildcards then Ordering.gt
  else if p_wildcards = 0 then lexCmpChars p.data q.data
  else if p.utf8ByteSize < q.utf8ByteSize then Ordering.gt
  else if q.utf8ByteSize < p.utf8ByteSize then Ordering.lt
  else lexCmpChars p.data q.data

/-- The ascending comparison `Vec::sort` derives from `Ord::cmp`:
`a` sorts no later than `b` iff `cmp(a, b)` is not `Greater`. -/
def config_le (a b : Config) : Bool :=
  config_cmp a.pattern b.pattern != Ordering.gt

/-- Stable insertion into a sorted list by a boolean `le`. -/
def orderedInsertBy {α : Type} (le : α → α → Bool) (a : α) : List α → List α
  | [] => [a]
  | b :: l => if le a b then a :: b :: l else b :: orderedInsertBy le a l

/-- Stable insertion sort by a boolean `le`, embedding `Vec::sort` (whose
stability is irrelevant here: map keys are distinct and the comparison is
total on distinct patterns). -/
def insertionSortBy {α : Type} (le : α → α → Bool) : List α → List α
  | [] => []
  | a :: l => orderedInsertBy le a (insertionSortBy le l)

/-- `pattern.replace("*", ".*?")` from `src/repo_config.rs:216`: every `*`
(a one-character pattern, so occurrences are the `*` characters) becomes the
three characters `.*?`. -/
def star_to_regex (pattern : String) : String :=
  String.mk (pattern.data.flatMap
    (fun c => if c = '*' then ['.', '*', '?'] else [c]))

/-- `format!("^{}$", regex_string)` from `src/repo_config.rs:217`: the
anchored regex text handed to `Regex::new`. -/
def anchored_regex (pattern : String) : String :=
  "^" ++ star_to_regex pattern ++ "$"

/-- The wildcard entries collected by the loop at
`src/repo_config.rs:200-210`: every entry whose pattern contains `*`, the
lone `"*"` excluded. -/
def wildcard_patterns (cmap : List Config) : List Config :=
  cmap.filter (fun c => c.pattern != "*" && c.pattern.data.contains '*')

/-- Outcome of the matching loop at `src/repo_config.rs:214-229`. -/
inductive WildcardScan
  | found (c : Config)
  | compileError
  | exhausted
  deriving Repr, DecidableEq

/-- The matching loop of `RepoConfig::lookup` (`src/repo_config.rs:214-229`)
over the sorted wildcard entries.  The external `regex` crate is abstracted
— like openssl's HMAC in `Signature.create` — as a parameter
`re : String → Option (String → Bool)`: `Regex::new(text)` either fails
(`none`) or yields a compiled matcher whose `is_match` is the returned
function.

```rust
for config in &wildcards {
    let pattern = match Regex::new(&format!("^{}$", regex_string)) {
        Ok(pattern) => pattern,
        Err(_) => return None,             // ← compileError
    };
    if pattern.is_match(&name) { return Some(config); }   // ← found
}
```
-/
def scan_wildcards (re : String → Option (String → Bool)) (name : String) :
    List Config → WildcardScan
  | [] => WildcardScan.exhausted
  | c :: rest =>
    match re (anchored_regex c.pattern) with
    | none => WildcardScan.compileError
    | some is_match =>
      if is_match name then WildcardScan.found c
      else scan_wildcards re name rest

/-- `RepoConfig` from `src/repo_config.rs:165-170` (the project root is not
needed by `lookup`). -/
structure RepoConfig where
  branch : Option (List Config)
  tag : Option (List Config)
  deriving Repr, DecidableEq

/-- The body of `RepoConfig::lookup` (`src/repo_config.rs:194-235`) once the
pattern map for the ref type has been selected:

1. exact `get` by `name`;
2. one pass splitting off the `"*"` catch-all and collecting the patterns
   containing `*`;
3. sort those by `Config`'s ordering;
4. walk the sorted entries: first regex match wins, and a pattern whose
   converted regex fails to compile makes the whole lookup return `None`
   immediately (`src/repo_config.rs:222`), bypassing the remaining entries
   *and* the catch-all;
5. otherwise the catch-all, if any. -/
def lookup_in (re : String → Option (String → Bool)) (cmap : List Config)
    (name : String) : Option Config :=
  match cmap.find? (fun c => c.pattern == name) with
  | some config => some config
  | none =>
    let catch_all := cmap.find? (fun c => c.pattern == "*")
    let sorted := insertionSortBy config_le (wildcard_patterns cmap)
    match scan_wildcards re name sorted with
    | WildcardScan.found config => some config
    | WildcardScan.compileError => none
    | WildcardScan.exhausted => catch_all

/-- `RepoConfig::lookup` from `src/repo_config.rs:181-236`: select the map
for the ref type (`None` → `None`), then search it. -/
def RepoConfig.lookup (cfg : RepoConfig) (re : String → Option (String → Bool))
    (group : RefType) (name : String) : Option Config :=
  match (match group with
         | RefType.branch => cfg.branch
         | RefType.tag => cfg.tag) with
  | none => none
  | some cmap => lookup_in re cmap name

/-- Modelled from the spec's words for the claim's specificity order: `"*"`
is always least specific; otherwise fewer `*` first; at equal `*` count the
longer pattern first; ties broken lexicographically. -/
def spec_le (a b : Config) : Bool :=
  let p := a.pattern
  let q := b.pattern
  if p = "*" then q = "*"
  else if q = "*" then true
  else if p.data.count '*' < q.data.count '*' then true
  else if q.data.count '*' < p.data.count '*' then false
  else if q.utf8ByteSize < p.utf8ByteSize then true
  else if p.utf8ByteSize < q.utf8ByteSize then false
  else lexCmpChars p.data q.data != Ordering.gt

/-- Modelled from the spec's words (claim C3): walk the wildcard entries in
specificity order and return the first whose converted anchored regex
matches.  The claim describes no compile-error outcome, so an entry whose
conversion does not compile simply does not match and the walk continues. -/
def scan_wildcards_spec (re : String → Option (String → Bool)) (name : String) :
    List Config → Option Config
  | [] => none
  | c :: rest =>
    match re (anchored_regex c.pattern) with
    | none => scan_wildcards_spec re name rest
    | some is_match =>
      if is_match name then some c
      else scan_wildcards_spec re name rest

/-- Modelled from the spec's words (claim C3), on a selected pattern map:
exact entry for `refName` first; otherwise the first wildcard entry in
specificity order whose converted anchored regex matches; otherwise the
`"*"` entry if present; otherwise `None`. -/
def lookup_spec_in (re : String → Option (String → Bool)) (cmap : List Config)
    (name : String) : Option Config :=
  match cmap.find? (fun c => c.pattern == name) with
  | some config => some config
  | none =>
    let catch_all := cmap.find? (fun c => c.pattern == "*")
    let sorted := insertionSortBy spec_le (wildcard_patterns cmap)
    match scan_wildcards_spec re name sorted with
    | some config => some config
    | none => catch_all

/-- Modelled from the spec's words (claim C3), with the map selection. -/
def RepoConfig.lookup_spec (cfg : RepoConfig)
    (re : String → Option (String → Bool)) (group : RefType) (name : String) :
    Option Config :=
  match (match group with
         | RefType.branch => cfg.branch
         | RefType.tag => cfg.tag) with
  | none => none
  | some cmap => lookup_spec_in re cmap name

/-- Every wildcard pattern of the configuration still compiles as a regex
after the `*` → `.*?` conversion — the proviso under which the source's
compile-error early return is unreachable. -/
def RepoConfig.wildcards_compile (cfg : RepoConfig)
    (re : String → Option (String → Bool)) : Bool :=
  (wildcard_patterns (cfg.branch.getD [])).all
    (fun c => (re (anchored_regex c.pattern)).isSome) &&
  (wildcard_patterns (cfg.tag.getD [])).all
    (fun c => (re (anchored_regex c.pattern)).isSome)

/-! ## error.rs, std::process: command results

`std::process::Output` carries an `ExitStatus` plus captured stdout/stderr.
`ExitStatus::code()` is `Some(code)` for a normal exit and `None` when the
process was killed by a signal; `success()` is true exactly for exit code 0.
We embed the status as `Option Int` (the code) and the captured streams as
strings (the bytes are only ever passed through, never inspected). -/

structure Output where
  status : Option Int
  stdout : String
  stderr : String
  deriving Repr, DecidableEq

/-- `ExitStatus::success()`. -/
def Output.success (o : Output) : Bool :=
  o.status == some 0

/-- `CommandError` from `src/error.rs:9-13`. -/
structure CommandError where
  desc : String
  output : Option Output
  detail : Option String
  deriving Repr, DecidableEq

/-! ## notifier.rs: status messages

`src/notifier.rs`.  The body is produced by `json::encode(&message)` where
`Message` and `TaskState` derive `RustcEncodable`.  rustc_serialize's derived
JSON encoder writes a struct as a compact object with the fields in
declaration order, and writes a dataless enum variant as a JSON string holding
the *variant name* (`Bunny => "Bunny"` in the library's own doc comment).  The
`impl ToJson for TaskState` at `src/notifier.rs:43-47` (which lowercases via
`Display`) is *not* consulted by `json::encode`, which goes through
`Encodable`. -/

inductive TaskState
  | Started
  | Success
  | Failed
  deriving Repr, DecidableEq

/-- `impl Display for TaskState` from `src/notifier.rs:33-41`: lowercase. -/
def TaskState.display : TaskState → String
  | TaskState.Started => "started"
  | TaskState.Success => "success"
  | TaskState.Failed => "failed"

/-- The string the derived `RustcEncodable` writes for a `TaskState`: the
variant name itself. -/
def TaskState.variant_name : TaskState → String
  | TaskState.Started => "Started"
  | TaskState.Success => "Success"
  | TaskState.Failed => "Failed"

/-- The string the derived `RustcEncodable` writes for a `RefType`
(`src/message.rs:8-11`); the variants are deliberately lowercase there. -/
def RefType.variant_name : RefType → String
  | RefType.tag => "tag"
  | RefType.branch => "branch"

/-- Four lowercase hex digits, for `\uXXXX` escapes. -/
def hex4 (n : Nat) : String :=
  String.mk [hexChar (n / 4096 % 16), hexChar (n / 256 % 16),
    hexChar (n / 16 % 16), hexChar (n % 16)]

/-- rustc_serialize's `escape_str`, per character: `"` and `\` get a
backslash escape, the named control characters use their short forms, other
control characters (and DEL) become `\uXXXX`, everything else is copied. -/
def jsonEscapeChar (c : Char) : String :=
  if c = '"' then "\\\""
  else if c = '\\' then "\\\\"
  else if c = '\x08' then "\\b"
  else if c = '\x0c' then "\\f"
  else if c = '\n' then "\\n"
  else if c = '\r' then "\\r"
  else if c = '\t' then "\\t"
  else if c.toNat < 32 ∨ c.toNat = 127 then "\\u" ++ hex4 c.toNat
  else String.mk [c]

/-- A JSON string literal: quoted, escaped. -/
def jsonString (s : String) : String :=
  "\"" ++ String.join (s.data.map jsonEscapeChar) ++ "\""

/-- `Message` from `src/notifier.rs:13-24` (field declaration order is the
JSON field order). -/
structure Message where
  status : TaskState
  failed : Bool
  task_id : String
  task_url : String
  owner : String
  reftype : RefType
  refstring : String
  repo : String
  sha : String
  deriving Repr, DecidableEq

/-- `json::encode(&message)` for the derived `RustcEncodable` on `Message`:
a compact JSON object, fields in declaration order, enums as variant-name
strings. -/
def encode_message (m : Message) : String :=
  "\x7b\"status\":" ++ jsonString m.status.variant_name ++
  ",\"failed\":" ++ (if m.failed then "true" else "false") ++
  ",\"task_id\":" ++ jsonString m.task_id ++
  ",\"task_url\":" ++ jsonString m.task_url ++
  ",\"owner\":" ++ jsonString m.owner ++
  ",\"reftype\":" ++ jsonString m.reftype.variant_name ++
  ",\"refstring\":" ++ jsonString m.refstring ++
  ",\"repo\":" ++ jsonString m.repo ++
  ",\"sha\":" ++ jsonString m.sha ++ "\x7d"

/-! ## git.rs: clone-or-fetch-and-reset

`src/git.rs:52-165`.  The outcomes of the external calls — the directory
test and the three possible `git` subprocesses — are supplied by a
`GitWorld`; a spawn failure is an `Except.error` carrying the OS error text,
a spawned process an `Except.ok` with its captured `Output`.  Each operation
returns its result together with the trace of git commands it actually
ran. -/

structure GitWorld where
  /-- `directory_exists(&Path::new(&self.local_path))` (`src/git.rs:82`). -/
  dir_exists : Bool
  /-- Outcome of spawning `git clone --depth=1 --single-branch -b <ref>
  <remote> <local>` (`src/git.rs:53-61`). -/
  clone_result : Except String Output
  /-- Outcome of spawning `git fetch --tags` in `local_path`
  (`src/git.rs:96-100`). -/
  fetch_result : Except String Output
  /-- Outcome of spawning `git reset --hard <sha>` in `local_path`
  (`src/git.rs:141-146`). -/
  reset_result : Except String Output
  deriving Repr

/-- The three git commands `get_latest` can run. -/
inductive GitCmd
  | clone
  | fetch
  | reset
  deriving Repr, DecidableEq

/-- The result handling every git invocation performs
(`src/git.rs:63-79`, `102-118`, `148-164`): a spawn failure becomes
`CommandError { desc: "failed to execute process, see detail", output: None,
detail: Some(text) }`; a non-zero exit becomes
`CommandError { desc: <fail_desc>, output: Some(result), detail: None }`;
success passes the output through. -/
def run_git_command (spawned : Except String Output) (fail_desc : String) :
    Except CommandError Output :=
  match spawned with
  | Except.error e =>
    Except.error ⟨"failed to execute process, see detail", none, some e⟩
  | Except.ok result =>
    if result.success then Except.ok result
    else Except.error ⟨fail_desc, some result, none⟩

/-- `GitRepo::ensure_cloned` from `src/git.rs:81-89`: clone only when the
directory is missing; `true` means a clone happened. -/
def ensure_cloned (w : GitWorld) : Except CommandError Bool × List GitCmd :=
  if !w.dir_exists then
    match run_git_command w.clone_result "git clone failed" with
    | Except.ok _ => (Except.ok true, [GitCmd.clone])
    | Except.error e => (Except.error e, [GitCmd.clone])
  else (Except.ok false, [])

/-- `GitRepo::fetch` from `src/git.rs:91-119`: `ensure_cloned`, then — in
every non-error case, including right after a fresh clone — `git fetch
--tags`. -/
def GitRepo.fetch (w : GitWorld) : Except CommandError Output × List GitCmd :=
  match ensure_cloned w with
  | (Except.error e, trace) => (Except.error e, trace)
  | (Except.ok _, trace) =>
    (run_git_command w.fetch_result "git fetch failed", trace ++ [GitCmd.fetch])

/-- `GitRepo::get_latest` from `src/git.rs:136-165`: `fetch`, then
`git reset --hard <sha>`. -/
def get_latest (w : GitWorld) : Except CommandError Output × List GitCmd :=
  match GitRepo.fetch w with
  | (Except.error e, trace) => (Except.error e, trace)
  | (Except.ok _, trace) =>
    (run_git_command w.reset_result "git reset failed", trace ++ [GitCmd.reset])

/-- `DeployTask` from `src/deploy_task.rs:32-39` (the UUID embedded as its
string form, the environment as an association list). -/
structure DeployTask where
  repo : GitRepo
  id : String
  env : List (String × String)
  logdir : String
  host : String
  secret : String
  deriving Repr, DecidableEq

/-- The `failed` flag computed in `send_message`
(`src/notifier.rs:74-77`): true exactly for `TaskState::Failed`. -/
def send_message_failed_flag (status : TaskState) : Bool :=
  match status with
  | TaskState.Failed => true
  | _ => false

/-- The `Message` built by `send_message` (`src/notifier.rs:71-89`) for a
task and state. -/
def send_message_message (task : DeployTask) (status : TaskState) : Message :=
  { status := status
    failed := send_message_failed_flag status
    task_id := task.id
    task_url := "http://" ++ task.host ++ "/tasks/" ++ task.id
    sha := task.repo.sha
    owner := task.repo.owner
    refstring := task.repo.refstring
    reftype := task.repo.reftype
    repo := task.repo.name }

/-- The serialized request body posted by `send_message`
(`src/notifier.rs:91-94`). -/
def send_message_body (task : DeployTask) (status : TaskState) : String :=
  encode_message (send_message_message task status)

/-! ## deploy_task.rs: the `run` lifecycle

`src/deploy_task.rs:55-196`.  The observable actions of `DeployTask::run` —
task-log writes, notifications, and the panic it can hit — are embedded as an
event list computed from a `RunWorld` describing the outcome of each external
step.  The username/environment/timestamp log lines (lines 77-87 and
184-189) are wall-clock and OS I/O with no control-flow effect and are not
modelled as events. -/

inductive RunEvent
  /-- A line written to the task log. -/
  | log (line : String)
  /-- A call into `notifier::started` / `success` / `failed`. -/
  | notify (state : TaskState)
  /-- `run` panicked (an `unwrap` failed). -/
  | panicked
  deriving Repr, DecidableEq

structure RunWorld where
  /-- Whether `LogWriter::new` succeeds (`src/deploy_task.rs:72-75`). -/
  logfile_ok : Bool
  /-- Outcomes of the git subprocesses for `self.repo.get_latest()`. -/
  git : GitWorld
  /-- Outcome of `RepoConfig::load` (`src/deploy_task.rs:98`): the parsed
  configuration, or the error description that gets logged. -/
  config_result : Except String RepoConfig
  /-- Outcome of the chosen runner's `task.run(&self.env)`
  (`src/deploy_task.rs:136` / `149`). -/
  runner_result : Except CommandError Output

/-- The exit-code rendering of `src/deploy_task.rs:166-169`: `"killed"` when
the process died to a signal, the decimal code otherwise. -/
def exit_code_string (status : Option Int) : String :=
  match status with
  | none => "killed"
  | some code => toString code

/-- The observable behaviour of `DeployTask::run` (`src/deploy_task.rs:55-196`)
as an event list:

* logfile creation fails → return, nothing observable in the log;
* `get_latest` error → `git_error.output.unwrap()`: *panics* when the error
  carries no output (spawn failure), otherwise logs `desc: stderr` and
  returns;
* config load error → log and return;
* `notifier::started`;
* ref lookup miss → log and return;
* chosen task absent for the method → log and return;
* runner error → log `task failed: desc (detail)` and return — *no*
  notification;
* runner output → notify `Success` on exit 0 and `Failed` otherwise, then
  log exit code, stdout, stderr.

The regex engine `re` is threaded through to `RepoConfig::lookup` (see
`scan_wildcards`). -/
def DeployTask.run_events (task : DeployTask)
    (re : String → Option (String → Bool)) (w : RunWorld) : List RunEvent :=
  if !w.logfile_ok then []
  else
    match (get_latest w.git).1 with
    | Except.error git_error =>
      match git_error.output with
      | none => [RunEvent.panicked]
      | some o =>
        [RunEvent.log (git_error.desc ++ ": " ++ o.stderr)]
    | Except.ok _ =>
      match w.config_result with
      | Except.error desc =>
        [RunEvent.log ("could not load config for repo " ++
          task.repo.remote_path ++ ": " ++ desc)]
      | Except.ok config =>
        RunEvent.notify TaskState.Started ::
        match config.lookup re task.repo.reftype task.repo.refstring with
        | none =>
          [RunEvent.log ("No config for ref '" ++ task.repo.refstring ++ "'")]
        | some ref_config =>
          let chosen :=
            match ref_config.method with
            | DeployMethod.Ansible => ref_config.ansible_task.isSome
            | DeployMethod.Makefile => ref_config.make_task.isSome
          if !chosen then
            [RunEvent.log ("No task for ref '" ++ task.repo.refstring ++ "'")]
          else
            match w.runner_result with
            | Except.error e =>
              [RunEvent.log ("task failed: " ++ e.desc ++ " (" ++
                e.detail.getD "" ++ ")")]
            | Except.ok output =>
              (if output.success then RunEvent.notify TaskState.Success
               else RunEvent.notify TaskState.Failed) ::
              [RunEvent.log ("exit code: " ++ exit_code_string output.status),
               RunEvent.log output.stdout,
               RunEvent.log output.stderr]

end Hookshot

/-! ## Theorems -/

namespace Hookshot

/-- Helper for the bounded-queue proof: when the queue is strictly below the
limit, `push_task_aux` appends at the back and cancels nothing. -/
theorem push_task_aux_of_lt {T : Type} (l : Nat) (t : T) :
    ∀ q : List T, q.length < l → push_task_aux l q t = (q ++ [t], []) := by
  intro q hq
  match q with
  | [] =>
    have hgt : ¬ (0 + 1 > l) := by omega
    simp only [push_task_aux, if_neg hgt, List.nil_append]
  | front :: rest =>
    have hgt : ¬ ((front :: rest).length + 1 > l) := by omega
    simp only [push_task_aux, if_neg hgt, List.cons_append]

/-- **C1** (code evaluation at the failing input).  The insecure-mode switch in
`src/cli.rs` string-matches the *name* `HOOKSHOT_INSECURE` instead of the
variable's value, so `skip_signature_check` is the constant `false` — even
though the value `"true"` (and `"t"`, `"1"`) would satisfy the match arms had
the value been consulted.  The claim "returns true iff the value of
`HOOKSHOT_INSECURE` is `"true"`, `"t"` or `"1"`" therefore fails whenever the
variable is set to one of those values. -/
theorem skip_signature_check_ignores_env :
    skip_signature_check = false ∧
    insecure_value_match "true" = true ∧
    insecure_value_match "t" = true ∧
    insecure_value_match "1" = true := by
  refine ⟨?_, rfl, rfl, rfl⟩
  rfl

/-- **C2**.  For a queue with limit `l > 1` holding at most `l` elements,
`push_task` (1) keeps the length at most `l`; (2) when the queue is below the
limit it appends the new task at the back and cancels nothing; (3) when the
queue already holds exactly `l` elements it removes exactly the oldest (front)
element, invokes its cancel hook exactly once (the cancelled list is precisely
`q.take 1`), and appends the new task at the back, leaving the surviving
elements in their original order. -/
theorem push_task_bounded {T : Type} (l : Nat) (q : List T) (t : T)
    (hl : 1 < l) (hq : q.length ≤ l) :
    ((push_task (some l) q t).1.length ≤ l) ∧
    (q.length < l → push_task (some l) q t = (q ++ [t], [])) ∧
    (q.length = l → push_task (some l) q t = (q.drop 1 ++ [t], q.take 1)) := by
  have hnl : ¬ (l < 1) := by omega
  have hfull : q.length = l →
      push_task (some l) q t = (q.drop 1 ++ [t], q.take 1) := by
    intro hlen
    match q with
    | [] => simp at hlen; omega
    | front :: rest =>
      have hgt : (front :: rest).length + 1 > l := by omega
      have hrest : rest.length < l := by
        simp only [List.length_cons] at hlen; omega
      simp only [push_task, if_neg hnl, push_task_aux, if_pos hgt,
        push_task_aux_of_lt l t rest hrest, List.drop_succ_cons,
        List.drop_zero, List.take_succ_cons, List.take_zero]
  refine ⟨?_, ?_, hfull⟩
  · rcases Nat.lt_or_ge q.length l with hlt | hge
    · have := push_task_aux_of_lt l t q hlt
      simp only [push_task, if_neg hnl, this, List.length_append,
        List.length_singleton]
      omega
    · have hlen : q.length = l := Nat.le_antisymm hq hge
      rw [hfull hlen]
      simp only [List.length_append, List.length_drop, List.length_singleton]
      omega
  · intro hlt
    simp only [push_task, if_neg hnl, push_task_aux_of_lt l t q hlt]

/-- Witness for `push_task_bounded` at `l = 2`, `q = [10, 20]`, `t = 30`:
the oldest element `10` is evicted and cancelled, `30` is appended. -/
theorem push_task_bounded_witness :
    (1 < 2 ∧ ([10, 20] : List Nat).length ≤ 2) ∧
    push_task (some 2) ([10, 20] : List Nat) 30 = ([20, 30], [10]) := by
  refine ⟨⟨by decide, by decide⟩, ?_⟩
  have h := push_task_bounded 2 ([10, 20] : List Nat) 30 (by decide) (by decide)
  exact h.2.2 (by decide)

/-- Every character produced by `sanitizeSlashes` differs from `/` and `\`. -/
theorem sanitizeSlashes_no_separators (s : String) :
    ∀ c ∈ (sanitizeSlashes s).data, c ≠ '/' ∧ c ≠ '\\' := by
  intro c hc
  simp only [sanitizeSlashes, replaceChar, List.map_map, List.mem_map] at hc
  obtain ⟨a, -, ha⟩ := hc
  subst ha
  simp only [Function.comp]
  by_cases h1 : a = '/'
  · simp [h1]
  · by_cases h2 : a = '\\' <;> simp [h1, h2]

/-- **C7** (counterexample).  For the native-dialect payload with
`prefix = "a.b"`, the `owner` stored in the resulting `GitRepo` is the raw
prefix `"a.b"`, not `"a!b"` as the claim (prefix with every `.` replaced by
`!`) predicts; the replacement result `"a!b"` is used only inside the local
path. -/
theorem simple_owner_keeps_dots :
    (SimpleMessage.to_git_repo
        ⟨some "a.b", RefType.branch, "main", "git@h:r", "HEAD", "proj"⟩
        "/ck").owner = "a.b" ∧
    replaceChar '.' '!' "a.b" = "a!b" ∧
    ("a.b" : String) ≠ "a!b" := by
  refine ⟨rfl, ?_, by decide⟩
  decide

/-- **C7** (amended).  The `owner` field of the `GitRepo` produced by
`SimpleMessage::to_git_repo` equals the payload's prefix unchanged, or `"$"`
when the prefix is absent; the `.` → `!` replacement is applied to the owner
only when building the local path component, which uses
`replaceChar '.' '!' owner`. -/
theorem simple_owner_is_raw_prefix (m : SimpleMessage) (root : String) :
    (m.to_git_repo root).owner = m.pfx.getD "$" ∧
    (m.to_git_repo root).local_path =
      root ++ "/" ++ sanitizeSlashes
        ((replaceChar '.' '!' (m.pfx.getD "$")) ++ "." ++ m.repo_name ++ "."
          ++ m.refstring) := by
  exact ⟨rfl, rfl⟩

/-- **C8**.  For both payload dialects the derived `local_path` is exactly the
checkout root, a single `/`, and one component built from
`owner.repo.refName` (for the native dialect the owner as used in the path,
i.e. the prefix with `.` replaced by `!`) in which every `/` and `\` has been
replaced by `!`; that component contains no path separator, so the path stays
under the checkout root. -/
theorem local_path_sanitized (root : String) :
    (∀ m : GitHubMessage,
      (m.to_git_repo root).local_path =
        root ++ "/" ++
          sanitizeSlashes (m.owner ++ "." ++ m.repo_name ++ "." ++ m.refstring) ∧
      ∀ c ∈ (sanitizeSlashes
          (m.owner ++ "." ++ m.repo_name ++ "." ++ m.refstring)).data,
        c ≠ '/' ∧ c ≠ '\\') ∧
    (∀ m : SimpleMessage,
      (m.to_git_repo root).local_path =
        root ++ "/" ++
          sanitizeSlashes ((replaceChar '.' '!' (m.pfx.getD "$")) ++ "." ++
            m.repo_name ++ "." ++ m.refstring) ∧
      ∀ c ∈ (sanitizeSlashes ((replaceChar '.' '!' (m.pfx.getD "$")) ++ "." ++
            m.repo_name ++ "." ++ m.refstring)).data,
        c ≠ '/' ∧ c ≠ '\\') := by
  constructor
  · intro m
    exact ⟨rfl, sanitizeSlashes_no_separators _⟩
  · intro m
    exact ⟨rfl, sanitizeSlashes_no_separators _⟩

/-- `splitEq` splits a list at its first `'='`. -/
theorem splitEq_append (a b : List Char) (ha : '=' ∉ a) :
    splitEq (a ++ '=' :: b) = some (a, b) := by
  induction a with
  | nil => simp [splitEq]
  | cons c rest ih =>
    have hc : ¬ (c = '=') := fun h => ha (h ▸ List.mem_cons_self c rest)
    have hrest : '=' ∉ rest := fun h => ha (List.mem_cons_of_mem c h)
    simp only [List.cons_append, splitEq, if_neg hc, List.append_eq, ih hrest]

/-- Every character of a hex-encoded byte string is a lowercase hex digit. -/
theorem bytes_to_hex_all_xdigit (mac : List (Fin 256)) :
    (bytes_to_hex mac).data.all isXdigitChar = true := by
  have hchar : ∀ n : Nat, n < 16 → isXdigitChar (hexChar n) = true := by decide
  simp only [bytes_to_hex, List.all_eq_true]
  intro c hc
  rw [List.mem_flatten] at hc
  obtain ⟨l, hl, hcl⟩ := hc
  rw [List.mem_map] at hl
  obtain ⟨b, -, hb⟩ := hl
  subst hb
  simp only [byteToHex, List.mem_cons, List.not_mem_nil, or_false] at hcl
  rcases hcl with h | h
  · exact h ▸ hchar _ (Nat.div_lt_of_lt_mul (by omega))
  · exact h ▸ hchar _ (Nat.mod_lt _ (by omega))

/-- The algorithm token round-trips through its wire name and consists of
word characters only, none of them `'='`. -/
theorem hashtype_token_ok (alg : HashType) :
    HashType.from_str alg.to_string = some alg ∧
    alg.to_string.data ≠ [] ∧
    alg.to_string.data.all isWordChar = true ∧
    '=' ∉ alg.to_string.data := by
  cases alg <;> exact ⟨rfl, by decide, by decide, by decide⟩

/-- **C4**.  Signature round-trip: for every HMAC primitive that produces at
least one mac byte, every algorithm, data and key,
`parse(create(alg, data, key).toString())` returns `create(alg, data, key)`
unchanged, and `verify(sig, data, key)` is `true` exactly when
`sig = create(sig.alg, data, key)`. -/
theorem signature_roundtrip (hmac : HashType → String → String → List (Fin 256))
    (alg : HashType) (data key : String) (h : hmac alg key data ≠ []) :
    Signature.fromStr (Signature.create hmac alg data key).toString =
      some (Signature.create hmac alg data key) ∧
    (∀ sig : Signature,
      Signature.verify hmac sig data key = true ↔
        sig = Signature.create hmac sig.alg data key) := by
  constructor
  · obtain ⟨hparse, hne, hword, hnoeq⟩ := hashtype_token_ok alg
    have hsplit :
        (Signature.create hmac alg data key).toString.data =
          alg.to_string.data ++ '=' :: (bytes_to_hex (hmac alg key data)).data := by
      show (alg.to_string ++ "=" ++ bytes_to_hex (hmac alg key data)).data = _
      rw [String.data_append, String.data_append, List.append_assoc]
      rfl
    have hexne : (bytes_to_hex (hmac alg key data)).data ≠ [] := by
      match hm : hmac alg key data with
      | [] => exact absurd hm h
      | b :: rest =>
        simp [bytes_to_hex, hm, byteToHex]
    simp only [Signature.fromStr, hsplit, splitEq_append _ _ hnoeq]
    rw [if_pos ⟨hne, by simpa using hword, hexne,
      by simpa using bytes_to_hex_all_xdigit (hmac alg key data)⟩]
    have heta1 : String.mk alg.to_string.data = alg.to_string := rfl
    have heta2 : String.mk (bytes_to_hex (hmac alg key data)).data =
        bytes_to_hex (hmac alg key data) := rfl
    rw [heta1, hparse, heta2]
    rfl
  · intro sig
    simp only [Signature.verify, beq_iff_eq]

/-- Membership in `orderedInsertBy`. -/
theorem mem_orderedInsertBy {α : Type} (le : α → α → Bool) (a x : α)
    (l : List α) : x ∈ orderedInsertBy le a l ↔ x = a ∨ x ∈ l := by
  induction l with
  | nil => simp [orderedInsertBy]
  | cons b l ih =>
    simp only [orderedInsertBy]
    by_cases h : le a b = true
    · simp only [if_pos h, List.mem_cons]
    · simp only [if_neg h, List.mem_cons, ih]
      tauto

/-- `insertionSortBy` permutes, in particular preserves membership. -/
theorem mem_insertionSortBy {α : Type} (le : α → α → Bool) (x : α)
    (l : List α) : x ∈ insertionSortBy le l ↔ x ∈ l := by
  induction l with
  | nil => simp [insertionSortBy]
  | cons a l ih =>
    simp [insertionSortBy, mem_orderedInsertBy, ih]

/-- Two comparators that agree on the elements produce the same insertion. -/
theorem orderedInsertBy_congr {α : Type} (le₁ le₂ : α → α → Bool) (a : α)
    (l : List α) (h : ∀ b ∈ l, le₁ a b = le₂ a b) :
    orderedInsertBy le₁ a l = orderedInsertBy le₂ a l := by
  induction l with
  | nil => rfl
  | cons b l ih =>
    have hb := h b (List.mem_cons_self b l)
    simp only [orderedInsertBy, hb]
    by_cases hle : le₂ a b = true
    · simp only [if_pos hle]
    · simp only [if_neg hle,
        ih (fun c hc => h c (List.mem_cons_of_mem b hc))]

/-- Two comparators that agree pairwise on the list sort it identically. -/
theorem insertionSortBy_congr {α : Type} (le₁ le₂ : α → α → Bool)
    (l : List α) (h : ∀ x ∈ l, ∀ y ∈ l, le₁ x y = le₂ x y) :
    insertionSortBy le₁ l = insertionSortBy le₂ l := by
  induction l with
  | nil => rfl
  | cons a l ih =>
    have hrec := ih (fun x hx y hy =>
      h x (List.mem_cons_of_mem a hx) y (List.mem_cons_of_mem a hy))
    simp only [insertionSortBy, hrec]
    apply orderedInsertBy_congr
    intro b hb
    have hbl : b ∈ l := (mem_insertionSortBy le₂ b l).mp hb
    exact h a (List.mem_cons_self a l) b (List.mem_cons_of_mem a hbl)

/-- On patterns that contain `*` and are not the lone `"*"` — exactly the
entries the lookup sorts — the source's `Config` ordering coincides with the
claim's specificity order. -/
theorem config_le_eq_spec_le (a b : Config)
    (ha : '*' ∈ a.pattern.data) (ha' : a.pattern ≠ "*")
    (hb' : b.pattern ≠ "*") :
    config_le a b = spec_le a b := by
  have hcount : ¬ (a.pattern.data.count '*' = 0) := by
    have := List.count_pos_iff.mpr ha
    omega
  simp only [config_le, config_cmp, spec_le, if_neg ha', if_neg hb']
  by_cases h1 : a.pattern.data.count '*' < b.pattern.data.count '*'
  · simp only [if_pos h1]
    decide
  · by_cases h2 : b.pattern.data.count '*' < a.pattern.data.count '*'
    · simp only [if_neg h1, if_pos h2]
      decide
    · by_cases h3 : a.pattern.utf8ByteSize < b.pattern.utf8ByteSize
      · have h4 : ¬ (b.pattern.utf8ByteSize < a.pattern.utf8ByteSize) := by
          omega
        simp only [if_neg h1, if_neg h2, if_neg hcount, if_pos h3, if_neg h4]
        decide
      · by_cases h4 : b.pattern.utf8ByteSize < a.pattern.utf8ByteSize
        · simp only [if_neg h1, if_neg h2, if_neg hcount, if_neg h3,
            if_pos h4]
          decide
        · simp only [if_neg h1, if_neg h2, if_neg hcount, if_neg h3,
            if_neg h4]

/-- When every entry's converted regex compiles, the source's matching loop
and the claim's matching walk agree (for any catch-all continuation). -/
theorem scan_agrees (re : String → Option (String → Bool)) (name : String)
    (catch_all : Option Config) :
    ∀ l : List Config,
      (∀ c ∈ l, (re (anchored_regex c.pattern)).isSome = true) →
      (match scan_wildcards re name l with
       | WildcardScan.found c => some c
       | WildcardScan.compileError => none
       | WildcardScan.exhausted => catch_all) =
      (match scan_wildcards_spec re name l with
       | some c => some c
       | none => catch_all) := by
  intro l
  induction l with
  | nil => intro _; rfl
  | cons c rest ih =>
    intro h
    have hc := h c (List.mem_cons_self c rest)
    obtain ⟨f, hf⟩ : ∃ f, re (anchored_regex c.pattern) = some f := by
      cases hre : re (anchored_regex c.pattern) with
      | none =>
        rw [hre] at hc
        simp [Option.isSome] at hc
      | some f => exact ⟨f, rfl⟩
    simp only [scan_wildcards, scan_wildcards_spec, hf]
    by_cases hm : f name = true
    · simp only [if_pos hm]
    · simp only [if_neg hm]
      exact ih (fun d hd => h d (List.mem_cons_of_mem c hd))

/-- On a selected pattern map whose wildcard entries all compile, the
source's lookup body equals the claim's description. -/
theorem lookup_in_eq (re : String → Option (String → Bool))
    (cmap : List Config) (name : String)
    (h : ∀ c ∈ wildcard_patterns cmap,
      (re (anchored_regex c.pattern)).isSome = true) :
    lookup_in re cmap name = lookup_spec_in re cmap name := by
  have hsort :
      insertionSortBy config_le (wildcard_patterns cmap) =
      insertionSortBy spec_le (wildcard_patterns cmap) := by
    apply insertionSortBy_congr
    intro x hx y hy
    unfold wildcard_patterns at hx hy
    rw [List.mem_filter, Bool.and_eq_true] at hx hy
    refine config_le_eq_spec_le x y ?_ ?_ ?_
    · simpa using hx.2.2
    · simpa using hx.2.1
    · simpa using hy.2.1
  have hsorted : ∀ c ∈ insertionSortBy spec_le (wildcard_patterns cmap),
      (re (anchored_regex c.pattern)).isSome = true := by
    intro c hcmem
    exact h c ((mem_insertionSortBy spec_le c _).mp hcmem)
  simp only [lookup_in, lookup_spec_in, hsort]
  cases cmap.find? (fun c => c.pattern == name) with
  | some config => rfl
  | none =>
    exact scan_agrees re name (cmap.find? (fun c => c.pattern == "*"))
      (insertionSortBy spec_le (wildcard_patterns cmap)) hsorted

/-- **C3** (counterexample).  The claim, quantified over *every* RepoConfig,
fails on the source at a configuration holding a wildcard pattern whose
converted regex does not compile.  With entries `"(*"` and `"*"`, the
conversion of `"(*"` is `^(.*?$` — an unbalanced group, which Rust's
`Regex::new` rejects — so the real lookup returns `None` at
`src/repo_config.rs:222`, bypassing the `"*"` catch-all that the claim says
is returned.  The engine below records exactly that compile failure and
nothing else. -/
theorem lookup_compile_error_bypasses_catch_all :
    (RepoConfig.mk
        (some [⟨"(*", DeployMethod.Makefile, none, some "build", none⟩,
               ⟨"*", DeployMethod.Makefile, none, some "build", none⟩])
        none).lookup
        (fun rs => if rs = "^(.*?$" then none else some (fun _ => false))
        RefType.branch "x" = none ∧
    (RepoConfig.mk
        (some [⟨"(*", DeployMethod.Makefile, none, some "build", none⟩,
               ⟨"*", DeployMethod.Makefile, none, some "build", none⟩])
        none).lookup_spec
        (fun rs => if rs = "^(.*?$" then none else some (fun _ => false))
        RefType.branch "x" =
      some ⟨"*", DeployMethod.Makefile, none, some "build", none⟩ ∧
    (none : Option Config) ≠
      some ⟨"*", DeployMethod.Makefile, none, some "build", none⟩ := by
  refine ⟨rfl, rfl, ?_⟩
  decide

/-- **C3** (amended).  For every RepoConfig, regex engine, refType and
refName such that every wildcard pattern still compiles after the
`*` → `.*?` conversion, `lookup` returns exactly what the claim describes:
the entry keyed by `refName` if present; otherwise the first wildcard entry
— in the order "fewer `*` first, then longer pattern, then lexicographic,
`*` least specific" — whose converted anchored regex matches `refName`;
otherwise the `"*"` entry; otherwise `None`.  (When a sorted wildcard
pattern fails to compile, the source instead returns `None` at that point,
bypassing the remaining entries and the catch-all — the case the
counterexample exhibits.) -/
theorem lookup_matches_spec (cfg : RepoConfig)
    (re : String → Option (String → Bool)) (group : RefType) (name : String)
    (hc : cfg.wildcards_compile re = true) :
    cfg.lookup re group name = cfg.lookup_spec re group name := by
  obtain ⟨b, t⟩ := cfg
  unfold RepoConfig.wildcards_compile at hc
  rw [Bool.and_eq_true, List.all_eq_true, List.all_eq_true] at hc
  unfold RepoConfig.lookup RepoConfig.lookup_spec
  cases group with
  | branch =>
    cases b with
    | none => rfl
    | some cmap =>
      exact lookup_in_eq re cmap name (fun c hcm => by simpa using hc.1 c hcm)
  | tag =>
    cases t with
    | none => rfl
    | some cmap =>
      exact lookup_in_eq re cmap name (fun c hcm => by simpa using hc.2 c hcm)

/-- Witness for `lookup_matches_spec` on the `test_lookup_branch` fixture of
the source (`prod-web`, `prod-*`, `*-web-*`, `*`, looked up at `prod-db`),
with an engine under which every conversion compiles and `^prod-.*?$`
matches `prod-db`: both the source lookup and the spec lookup select the
`prod-*` entry. -/
theorem lookup_matches_spec_witness :
    ((RepoConfig.mk
        (some [⟨"*", DeployMethod.Makefile, none, some "build", none⟩,
               ⟨"*-web-*", DeployMethod.Makefile, none, some "build", none⟩,
               ⟨"prod-*", DeployMethod.Makefile, none, some "build", none⟩,
               ⟨"prod-web", DeployMethod.Makefile, none, some "build", none⟩])
        none).wildcards_compile
        (fun rs => some (fun nm => rs = "^prod-.*?$" && nm = "prod-db")) =
      true) ∧
    (RepoConfig.mk
        (some [⟨"*", DeployMethod.Makefile, none, some "build", none⟩,
               ⟨"*-web-*", DeployMethod.Makefile, none, some "build", none⟩,
               ⟨"prod-*", DeployMethod.Makefile, none, some "build", none⟩,
               ⟨"prod-web", DeployMethod.Makefile, none, some "build", none⟩])
        none).lookup
        (fun rs => some (fun nm => rs = "^prod-.*?$" && nm = "prod-db"))
        RefType.branch "prod-db" =
      (RepoConfig.mk
        (some [⟨"*", DeployMethod.Makefile, none, some "build", none⟩,
               ⟨"*-web-*", DeployMethod.Makefile, none, some "build", none⟩,
               ⟨"prod-*", DeployMethod.Makefile, none, some "build", none⟩,
               ⟨"prod-web", DeployMethod.Makefile, none, some "build", none⟩])
        none).lookup_spec
        (fun rs => some (fun nm => rs = "^prod-.*?$" && nm = "prod-db"))
        RefType.branch "prod-db" ∧
    (RepoConfig.mk
        (some [⟨"*", DeployMethod.Makefile, none, some "build", none⟩,
               ⟨"*-web-*", DeployMethod.Makefile, none, some "build", none⟩,
               ⟨"prod-*", DeployMethod.Makefile, none, some "build", none⟩,
               ⟨"prod-web", DeployMethod.Makefile, none, some "build", none⟩])
        none).lookup
        (fun rs => some (fun nm => rs = "^prod-.*?$" && nm = "prod-db"))
        RefType.branch "prod-db" =
      some ⟨"prod-*", DeployMethod.Makefile, none, some "build", none⟩ := by
  refine ⟨by decide, ?_, by rfl⟩
  exact lookup_matches_spec _
    (fun rs => some (fun nm => rs = "^prod-.*?$" && nm = "prod-db"))
    RefType.branch "prod-db" (by decide)

/-- **C5** (code evaluation at the failing input).  The notification body is
produced by `json::encode`, which uses the derived `RustcEncodable` and hence
writes the `status` field as the capitalized *variant name* — `"Started"`,
`"Success"`, `"Failed"` — not the lowercase strings of the claim (which is
what the same file's `Display`/`ToJson` impls produce).  The `failed` flag,
by contrast, is true exactly for `TaskState::Failed`, as claimed. -/
theorem notifier_status_capitalized :
    (∀ s : TaskState, send_message_failed_flag s = true ↔ s = TaskState.Failed) ∧
    TaskState.display TaskState.Started = "started" ∧
    TaskState.variant_name TaskState.Started ≠ TaskState.display TaskState.Started ∧
    send_message_body
        ⟨⟨"o", "p", "r", RefType.branch, "s", "rp", "lp"⟩, "t", [], "l", "h", "sec"⟩
        TaskState.Started =
      "\x7b\"status\":\"Started\",\"failed\":false,\"task_id\":\"t\",\"task_url\":\"http://h/tasks/t\",\"owner\":\"o\",\"reftype\":\"branch\",\"refstring\":\"r\",\"repo\":\"p\",\"sha\":\"s\"\x7d" := by
  refine ⟨?_, rfl, by decide, ?_⟩
  · intro s
    cases s <;> simp [send_message_failed_flag]
  · rfl

/-- **C9** (code evaluation at the failing input).  When `local_path` does not
exist and every git command succeeds, `get_latest` runs the clone *and then
still runs* `git fetch --tags` and `git reset --hard` inside the fresh clone
— three commands, not the single clone that the documented shell equivalent
`(test -d … && fetch && reset) || clone` (doc comment at `src/git.rs:127-135`)
performs. -/
theorem get_latest_fresh_clone_runs_three_commands :
    (get_latest ⟨false, Except.ok ⟨some 0, "", ""⟩, Except.ok ⟨some 0, "", ""⟩,
        Except.ok ⟨some 0, "", ""⟩⟩).2 =
      [GitCmd.clone, GitCmd.fetch, GitCmd.reset] ∧
    [GitCmd.clone, GitCmd.fetch, GitCmd.reset] ≠ [GitCmd.clone] := by
  exact ⟨rfl, by decide⟩

/-- **C10** (code evaluation at the failing input).  When the directory
exists and `git fetch` fails to *spawn*, `get_latest` returns a
`CommandError` with `output = None` — and `DeployTask::run` then panics on
`git_error.output.unwrap()` (`src/deploy_task.rs:90`) instead of logging the
stderr and returning. -/
theorem run_panics_on_outputless_git_error :
    (get_latest ⟨true, Except.ok ⟨some 0, "", ""⟩,
        Except.error "No such file or directory (os error 2)",
        Except.ok ⟨some 0, "", ""⟩⟩).1 =
      Except.error ⟨"failed to execute process, see detail", none,
        some "No such file or directory (os error 2)"⟩ ∧
    DeployTask.run_events
        ⟨⟨"o", "p", "r", RefType.branch, "s", "rp", "lp"⟩, "t", [], "l", "h", "sec"⟩
        (fun _ => some (fun _ => false))
        ⟨true,
         ⟨true, Except.ok ⟨some 0, "", ""⟩,
          Except.error "No such file or directory (os error 2)",
          Except.ok ⟨some 0, "", ""⟩⟩,
         Except.ok ⟨none, none⟩,
         Except.ok ⟨some 0, "", ""⟩⟩ =
      [RunEvent.panicked] :=
  ⟨rfl, rfl⟩

/-- **C6** (counterexample).  A runner *error* (failure to spawn, as opposed
to an `Output` with non-zero exit) is only logged; `run` returns without
sending any `Failed` notification, contradicting the claim that a Failed
notification is sent on runner errors. -/
theorem runner_error_sends_no_notification :
    DeployTask.run_events
        ⟨⟨"o", "p", "r", RefType.branch, "s", "rp", "lp"⟩, "t", [], "l", "h", "sec"⟩
        (fun _ => some (fun _ => false))
        ⟨true,
         ⟨true, Except.ok ⟨some 0, "", ""⟩, Except.ok ⟨some 0, "", ""⟩,
          Except.ok ⟨some 0, "", ""⟩⟩,
         Except.ok ⟨some [⟨"r", DeployMethod.Makefile, none, some "build", none⟩],
           none⟩,
         Except.error ⟨"failed to execute `make`, see detail", none,
           some "os error"⟩⟩ =
      [RunEvent.notify TaskState.Started,
       RunEvent.log "task failed: failed to execute `make`, see detail (os error)"] ∧
    RunEvent.notify TaskState.Failed ∉
      DeployTask.run_events
        ⟨⟨"o", "p", "r", RefType.branch, "s", "rp", "lp"⟩, "t", [], "l", "h", "sec"⟩
        (fun _ => some (fun _ => false))
        ⟨true,
         ⟨true, Except.ok ⟨some 0, "", ""⟩, Except.ok ⟨some 0, "", ""⟩,
          Except.ok ⟨some 0, "", ""⟩⟩,
         Except.ok ⟨some [⟨"r", DeployMethod.Makefile, none, some "build", none⟩],
           none⟩,
         Except.error ⟨"failed to execute `make`, see detail", none,
           some "os error"⟩⟩ := by
  refine ⟨rfl, ?_⟩
  decide

/-- **C6** (amended).  On a run that reaches the runner (log file created,
checkout fetched, config loaded and resolved, chosen task present): if the
runner returns an `Output`, a `Success` notification is sent when the exit
status is 0 and a `Failed` notification otherwise; but if the runner itself
errors (failure to spawn), the error is only logged — no notification of any
kind is sent for it. -/
theorem run_notifies_from_exit_status (task : DeployTask)
    (re : String → Option (String → Bool)) (w : RunWorld)
    (cfg : RepoConfig) (rc : Config)
    (hlog : w.logfile_ok = true)
    (hgit : (get_latest w.git).1.isOk = true)
    (hcfg : w.config_result = Except.ok cfg)
    (hlk : cfg.lookup re task.repo.reftype task.repo.refstring = some rc)
    (htask : (match rc.method with
              | DeployMethod.Ansible => rc.ansible_task.isSome
              | DeployMethod.Makefile => rc.make_task.isSome) = true) :
    (∀ o : Output, w.runner_result = Except.ok o →
      task.run_events re w =
        [RunEvent.notify TaskState.Started,
         if o.success then RunEvent.notify TaskState.Success
           else RunEvent.notify TaskState.Failed,
         RunEvent.log ("exit code: " ++ exit_code_string o.status),
         RunEvent.log o.stdout,
         RunEvent.log o.stderr]) ∧
    (∀ e : CommandError, w.runner_result = Except.error e →
      task.run_events re w =
        [RunEvent.notify TaskState.Started,
         RunEvent.log ("task failed: " ++ e.desc ++ " (" ++
           e.detail.getD "" ++ ")")]) := by
  cases hg : (get_latest w.git).1 with
  | error e =>
    rw [hg] at hgit
    simp [Except.isOk, Except.toBool] at hgit
  | ok o0 =>
    constructor
    · intro o ho
      simp [DeployTask.run_events, hlog, hg, hcfg, hlk, htask, ho]
    · intro e he
      simp [DeployTask.run_events, hlog, hg, hcfg, hlk, htask, he]

/-- Witness for `run_notifies_from_exit_status`: a make task for branch
`master` whose runner exits 0 produces `Started` then `Success`. -/
theorem run_notifies_from_exit_status_witness :
    ((get_latest ⟨true, Except.ok ⟨some 0, "", ""⟩, Except.ok ⟨some 0, "", ""⟩,
        Except.ok ⟨some 0, "", ""⟩⟩).1.isOk = true) ∧
    ((RepoConfig.mk
        (some [⟨"master", DeployMethod.Makefile, none, some "build", none⟩])
        none).lookup (fun _ => some (fun _ => false)) RefType.branch "master" =
      some ⟨"master", DeployMethod.Makefile, none, some "build", none⟩) ∧
    DeployTask.run_events
        ⟨⟨"o", "p", "master", RefType.branch, "s", "rp", "lp"⟩, "t", [], "l",
          "h", "sec"⟩
        (fun _ => some (fun _ => false))
        ⟨true,
         ⟨true, Except.ok ⟨some 0, "", ""⟩, Except.ok ⟨some 0, "", ""⟩,
          Except.ok ⟨some 0, "", ""⟩⟩,
         Except.ok (RepoConfig.mk
           (some [⟨"master", DeployMethod.Makefile, none, some "build", none⟩])
           none),
         Except.ok ⟨some 0, "out", "err"⟩⟩ =
      [RunEvent.notify TaskState.Started,
       RunEvent.notify TaskState.Success,
       RunEvent.log "exit code: 0",
       RunEvent.log "out",
       RunEvent.log "err"] := by
  refine ⟨rfl, rfl, ?_⟩
  have h := (run_notifies_from_exit_status
    ⟨⟨"o", "p", "master", RefType.branch, "s", "rp", "lp"⟩, "t", [], "l",
      "h", "sec"⟩
    (fun _ => some (fun _ => false))
    ⟨true,
     ⟨true, Except.ok ⟨some 0, "", ""⟩, Except.ok ⟨some 0, "", ""⟩,
      Except.ok ⟨some 0, "", ""⟩⟩,
     Except.ok (RepoConfig.mk
       (some [⟨"master", DeployMethod.Makefile, none, some "build", none⟩])
       none),
     Except.ok ⟨some 0, "out", "err"⟩⟩
    (RepoConfig.mk
      (some [⟨"master", DeployMethod.Makefile, none, some "build", none⟩])
      none)
    ⟨"master", DeployMethod.Makefile, none, some "build", none⟩
    rfl rfl rfl rfl rfl).1 ⟨some 0, "out", "err"⟩ rfl
  exact h.trans (by decide)

/-- Witness for `signature_roundtrip`, with the HMAC primitive fixed to a
constant one-byte mac. -/
theorem signature_roundtrip_witness :
    ((fun (_ : HashType) (_ _ : String) => [(171 : Fin 256)])
        HashType.SHA256 "key" "data" ≠ []) ∧
    Signature.fromStr
        (Signature.create (fun _ _ _ => [(171 : Fin 256)])
          HashType.SHA256 "data" "key").toString =
      some (Signature.create (fun _ _ _ => [(171 : Fin 256)])
          HashType.SHA256 "data" "key") := by
  refine ⟨by decide, ?_⟩
  exact (signature_roundtrip (fun _ _ _ => [(171 : Fin 256)])
    HashType.SHA256 "data" "key" (by decide)).1

end Hookshot
